import Mathlib

/-!
Verification of `src/runner/animation/keyframe_animation.js`.

Shallow embedding conventions:
* frame numbers, progress values and property values are rationals (`ℚ`);
* a JS property-value object (`{x: 0, y: 10}`) is an association list keyed
  by property name, a JS frame→object map is an association list keyed by `ℚ`;
* fallible code returns `Except String`, the string describing the thrown
  JS error;
* the external `PropertiesTween` interpolation primitive is not part of this
  repository; it is modelled from the spec as per-property linear
  interpolation (its internals are irrelevant to the claims: only which
  endpoints and progress the animation passes to it matter).
-/

namespace KeyframeAnimation

/-- A property-value map: a JS object such as `{x: 0, y: 10}`. A property
absent from the list is `undefined`. -/
abbrev PropMap := List (String × ℚ)

/-- JS property read `m[p]`: `some v` when the own property `p` is present,
`none` (undefined) otherwise. -/
def getProp (m : PropMap) (p : String) : Option ℚ :=
  match m with
  | [] => none
  | (q, v) :: rest => if q = p then some v else getProp rest p

/-- JS `hasOwnProperty.call(m, p)`. -/
def hasProp (m : PropMap) (p : String) : Bool :=
  (getProp m p).isSome

/-- JS property write `m[p] = v`: overwrite when present, append otherwise. -/
def setProp (m : PropMap) (p : String) (v : ℚ) : PropMap :=
  match m with
  | [] => [(p, v)]
  | (q, w) :: rest => if q = p then (q, v) :: rest else (q, w) :: setProp rest p v

/-- The `this.keyframes` object: absolute frame number → property map. -/
abbrev Keyframes := List (ℚ × PropMap)

/-- JS read `keyframes[f]`. -/
def getFrame (kfs : Keyframes) (f : ℚ) : Option PropMap :=
  match kfs with
  | [] => none
  | (g, m) :: rest => if g = f then some m else getFrame rest f

/-- JS write `keyframes[f] = m`: overwrite when the frame key is present
(last writer wins), append otherwise. -/
def setFrame (kfs : Keyframes) (f : ℚ) (m : PropMap) : Keyframes :=
  match kfs with
  | [] => [(f, m)]
  | (g, w) :: rest => if g = f then (g, m) :: rest else (g, w) :: setFrame rest f m

/-- Modelled from the spec: the elementary per-property interpolation
primitive (the external `PropertiesTween`, absent from `src/`): given a
from-value, a to-value and a progress scalar it returns the interpolated
value. `new PropertiesTween({p: a}, {p: b}).at(t)[p]` is `interpolate a b t`. -/
def interpolate (a b t : ℚ) : ℚ :=
  a + (b - a) * t

/-- A segment: a `PropertiesTween` built by `_createTweens`, together with the
normalized progress window `_createTweens` attaches to it. -/
structure Tween where
  fromValues : PropMap
  toValues : PropMap
  startProgress : ℚ
  endProgress : ℚ
deriving Repr, DecidableEq

/-- The body of the `this.keys.forEach` loop in `_createTweens`
(`keyframe_animation.js:325-348`), threading the `totalDuration` accumulator
and the `prevValues` cursor. The frame-0 key is skipped
(`if (key === 0) { return; }`). -/
def createTweensGo (duration : ℚ) (keyframes : Keyframes) :
    List ℚ → ℚ → PropMap → List Tween
  | [], _, _ => []
  | key :: rest, totalDuration, prevValues =>
    if key = 0 then
      createTweensGo duration keyframes rest totalDuration prevValues
    else
      let animationDuration := key - totalDuration
      let startProgress := totalDuration / duration
      let tween : Tween :=
        { fromValues := prevValues
          toValues := (getFrame keyframes key).getD []
          startProgress := startProgress
          endProgress := startProgress + animationDuration / duration }
      tween :: createTweensGo duration keyframes rest
        (totalDuration + animationDuration) ((getFrame keyframes key).getD [])

/-- `_createTweens(startValues)` (`keyframe_animation.js:316-351`): one
segment per non-zero sorted key, with cumulative progress windows.
`duration` and `keys` are the instance fields `this.duration`, `this.keys`
(the sorted numeric keys of `this.keyframes`). -/
def createTweens (duration : ℚ) (keyframes : Keyframes) (keys : List ℚ)
    (startValues : PropMap) : List Tween :=
  createTweensGo duration keyframes keys 0 startValues

/-- The `[startProgress, endProgress)` windows of a segment list. -/
def windows (tweens : List Tween) : List (ℚ × ℚ) :=
  tweens.map fun t => (t.startProgress, t.endProgress)

/-- Claim-side predicate, from the spec's words: the segment windows are
contiguous, monotonically increasing, and together partition `[0, 1]`
(first window starts at 0, last window ends at 1). -/
def PartitionsUnitInterval (tweens : List Tween) : Prop :=
  tweens.head?.map Tween.startProgress = some 0 ∧
  tweens.getLast?.map Tween.endProgress = some 1 ∧
  List.Chain' (fun a b => a.endProgress = b.startProgress) tweens ∧
  ∀ t ∈ tweens, t.startProgress < t.endProgress

/-- The windows produced by `createTweensGo` on keys that are all non-zero:
an explicit description used to prove the C1 characterization. -/
def windowsOf (duration : ℚ) : List ℚ → ℚ → List (ℚ × ℚ)
  | [], _ => []
  | key :: rest, totalDuration =>
    if key = 0 then windowsOf duration rest totalDuration
    else (totalDuration / duration, key / duration) :: windowsOf duration rest key

/-- A keyframe label before resolution (`_convertKeysToFrames` resolves it to
an absolute frame number): a numeric label, `"from"`/`"start"`, `"to"`/`"end"`,
a percentage `"N%"`, or any other label (handed to `clock.toFrameNumber`). -/
inductive KeyLabel where
  | num (n : ℚ)
  | fromStart
  | toEnd
  | percent (n : ℚ)
  | timeLabel (s : String)
deriving Repr, DecidableEq

/-- Label resolution in `_convertKeysToFrames` (`keyframe_animation.js:458-463`),
in the source's priority order. `clock` embeds the external
`clock.toFrameNumber`. -/
def resolveKey (clock : String → ℚ) (duration : ℚ) : KeyLabel → ℚ
  | .num n => n
  | .fromStart => 0
  | .toEnd => duration
  | .percent n => duration * n / 100
  | .timeLabel s => clock s

/-- The key-processing loop of `_convertKeysToFrames`
(`keyframe_animation.js:456-468`), threading `keyframesClean` and `maxFrame`.
Afterwards (`keyframe_animation.js:474-476`) the duration is widened to
`maxFrame` when `maxFrame > duration`. Returns the clean map and the final
`this.duration`. -/
def convertGo (clock : String → ℚ) (duration : ℚ) :
    List (KeyLabel × PropMap) → Keyframes → ℚ → Keyframes × ℚ
  | [], clean, maxFrame =>
    (clean, if maxFrame > duration then maxFrame else duration)
  | (key, m) :: rest, clean, maxFrame =>
    let frame := resolveKey clock duration key
    convertGo clock duration rest (setFrame clean frame m)
      (if frame > maxFrame then frame else maxFrame)

/-- `_convertKeysToFrames(keyframes)` (`keyframe_animation.js:448-479`):
resolves every label against the declared duration, last colliding label
wins, and widens the duration to the maximum resolved frame if that exceeds
it. -/
def convertKeysToFrames (clock : String → ℚ) (duration : ℚ)
    (keyframes : List (KeyLabel × PropMap)) : Keyframes × ℚ :=
  convertGo clock duration keyframes [] 0

/-- The property-name gathering loop of `_fillInProperties`
(`keyframe_animation.js:367-376`): the union of property names referenced in
any keyframe, in first-occurrence order (JS `for..in` insertion order). -/
def gatherProperties (keyframes : Keyframes) (keys : List ℚ) : List String :=
  keys.foldl
    (fun acc key =>
      ((getFrame keyframes key).getD []).foldl
        (fun acc2 pv => if pv.1 ∈ acc2 then acc2 else acc2 ++ [pv.1]) acc)
    []

/-- `getFrameOfLastDefinedProperty(prop, keysIndex)`
(`keyframe_animation.js:421-429`): walks `keysIndex-1, keysIndex-2, …, 0`
and returns the first (i.e. nearest earlier) sorted frame whose keyframe has
the property, `none` (JS `null`) otherwise. -/
def getFrameOfLastDefinedProperty (keyframes : Keyframes) (keys : List ℚ)
    (p : String) : ℕ → Option ℚ
  | 0 => none
  | i + 1 =>
    let f := keys.getD i 0
    if hasProp ((getFrame keyframes f).getD []) p then some f
    else getFrameOfLastDefinedProperty keyframes keys p i

/-- `getFrameOfNextDefinedProperty(prop, keysIndex)`
(`keyframe_animation.js:431-439`): scans the sorted frames from `keysIndex`
upward and returns the first whose keyframe has the property, `none`
otherwise. `rest` is `keys.drop keysIndex`. -/
def findNextDefined (keyframes : Keyframes) (p : String) :
    List ℚ → Option ℚ
  | [] => none
  | f :: rest =>
    if hasProp ((getFrame keyframes f).getD []) p then some f
    else findNextDefined keyframes p rest

/-- The body of the per-property fill in `_fillInProperties`
(`keyframe_animation.js:389-417`) for one missing property `p` at sorted
frame `frame` (index `i`). Mirrors the JS falsy chains exactly:
`prevValue = prevFrame && keyframes[prevFrame][p] || initialValues[p]` falls
back to the initial value when `prevFrame` is `null` or `0`, and also when
the backward keyframe's value is the (falsy) number `0`;
`nextValue = nextFrame && keyframes[nextFrame][p]` is the frame number `0`
itself when `nextFrame` is `0`. `prevValue == null` raises the
`No initial value specified` error. In the progress expression
`(frame - prevFrame)/(nextFrame - prevFrame)` a `null` `prevFrame` coerces
to `0`. -/
def fillProp (duration : ℚ) (keys : List ℚ) (initialValues : PropMap)
    (keyframes : Keyframes) (i : ℕ) (frame : ℚ) (p : String) :
    Except String Keyframes :=
  let keyframe := (getFrame keyframes frame).getD []
  if hasProp keyframe p then .ok keyframes
  else
    let prevFrame := getFrameOfLastDefinedProperty keyframes keys p i
    let nextFrame := findNextDefined keyframes p (keys.drop i)
    let prevValue : Option ℚ :=
      match prevFrame with
      | none => getProp initialValues p
      | some f =>
        if f = 0 then getProp initialValues p
        else
          match getProp ((getFrame keyframes f).getD []) p with
          | none => getProp initialValues p
          | some v => if v = 0 then getProp initialValues p else some v
    let nextValue : Option ℚ :=
      match nextFrame with
      | none => none
      | some f => if f = 0 then some 0 else getProp ((getFrame keyframes f).getD []) p
    match prevValue with
    | none => .error p
    | some pv =>
      let nv : ℚ × ℚ :=
        match nextValue with
        | none => (pv, duration)
        | some v => (v, nextFrame.getD 0)
      let prevFrameNum := prevFrame.getD 0
      let value :=
        interpolate pv nv.1 ((frame - prevFrameNum) / (nv.2 - prevFrameNum))
      .ok (setFrame keyframes frame (setProp keyframe p value))

/-- The per-frame `for (p in properties)` loop of `_fillInProperties`
(`keyframe_animation.js:389-418`), threading the mutated keyframe map. -/
def fillFrame (duration : ℚ) (keys : List ℚ) (initialValues : PropMap)
    (props : List String) (keyframes : Keyframes) (i : ℕ) (frame : ℚ) :
    Except String Keyframes :=
  match props with
  | [] => .ok keyframes
  | p :: rest =>
    match fillProp duration keys initialValues keyframes i frame p with
    | .error e => .error e
    | .ok kfs => fillFrame duration keys initialValues rest kfs i frame

/-- The outer `tools.forEach(keys, …)` loop of `_fillInProperties`
(`keyframe_animation.js:379-419`): frames in sorted order, threading the
mutated keyframe map (later frames observe values filled into earlier
ones). -/
def fillGo (duration : ℚ) (keys : List ℚ) (initialValues : PropMap)
    (props : List String) : Keyframes → ℕ → List ℚ → Except String Keyframes
  | keyframes, _, [] => .ok keyframes
  | keyframes, i, frame :: rest =>
    match fillFrame duration keys initialValues props keyframes i frame with
    | .error e => .error e
    | .ok kfs => fillGo duration keys initialValues props kfs (i + 1) rest

/-- `_fillInProperties(initialValues)` (`keyframe_animation.js:359-440`):
gathers the referenced property names, then fills every missing property at
every sorted keyframe. `duration` is `this.duration` (already widened),
`keys` is `this.keys`. -/
def fillInProperties (duration : ℚ) (keys : List ℚ) (keyframes : Keyframes)
    (initialValues : PropMap) : Except String Keyframes :=
  fillGo duration keys initialValues (gatherProperties keyframes keys)
    keyframes 0 keys

/-- A JS number as produced by the arithmetic in `step`: a finite rational,
`Infinity`, `-Infinity`, or `NaN`. -/
inductive JsNum where
  | fin (q : ℚ)
  | posInf
  | negInf
  | nan
deriving Repr, DecidableEq

/-- JS division of finite numbers: IEEE semantics for a zero divisor
(`x/0` is `±Infinity` for non-zero `x` and `NaN` for `0/0`). -/
def jsDiv (a b : ℚ) : JsNum :=
  if b = 0 then
    if a = 0 then .nan else if 0 < a then .posInf else .negInf
  else .fin (a / b)

/-- The JS comparison `x > 1` on a possibly non-finite number
(`NaN > 1` is false). -/
def jsGtOne : JsNum → Bool
  | .fin q => 1 < q
  | .posInf => true
  | .negInf => false
  | .nan => false

/-- Modelled from the spec: one property of `PropertiesTween.at(progress)`
(the external interpolation primitive), extended to a possibly non-finite
progress with IEEE semantics: `a + (b - a) * progress`. -/
def jsInterp (a b : ℚ) : JsNum → JsNum
  | .fin q => .fin (a + (b - a) * q)
  | .nan => .nan
  | .posInf => if b - a = 0 then .nan else if 0 < b - a then .posInf else .negInf
  | .negInf => if b - a = 0 then .nan else if 0 < b - a then .negInf else .posInf

/-- Modelled from the spec: `tween.at(progress)` applied to a whole segment:
the interpolated map, per property of the from-map (a to-value missing from
the to-map would be `undefined` in the arithmetic, hence `NaN`). -/
def tweenAt (tween : Tween) (progress : JsNum) : List (String × JsNum) :=
  tween.fromValues.map fun pv =>
    (pv.1,
      match getProp tween.toValues pv.1 with
      | some w => jsInterp pv.2 w progress
      | none => .nan)

/-- A subject binding (`this.subjects[i]`): the external subject (identified
by a number) and its per-subject segment list. -/
structure SubjectBinding where
  subject : ℕ
  tweens : List Tween
deriving Repr, DecidableEq

/-- The final `for` loop of `step` (`keyframe_animation.js:219-225`): apply
each subject's segment at the resolved index to the phase-local progress.
A subject whose segment list is too short makes JS dereference `undefined`
(a thrown TypeError). Returns the per-subject applied value maps. -/
def stepApply (subjects : List SubjectBinding) (currentTweenIndex : ℕ)
    (thisPhaseProgress : JsNum) :
    Except String (List (ℕ × List (String × JsNum))) :=
  match subjects with
  | [] => .ok []
  | s :: rest =>
    match s.tweens.get? currentTweenIndex with
    | none => .error "TypeError: subject tween is undefined"
    | some tween =>
      match stepApply rest currentTweenIndex thisPhaseProgress with
      | .error e => .error e
      | .ok applied => .ok ((s.subject, tweenAt tween thisPhaseProgress) :: applied)

/-- The segment-advancing recursion of `step`
(`keyframe_animation.js:207-216`): `cur` is the active segment
(`subjects[0].tweens[currentTweenIndex]`) and `rest` the segments after it,
so `rest ≠ []` is exactly `currentTweenIndex + 1 < tweensLength`. The
re-entrant call `this.step(realProgress)` re-applies the easing to the same
`realProgress`, so the eased progress is unchanged across iterations. -/
def stepLoop (subjects : List SubjectBinding) (eased : ℚ) :
    ℕ → Tween → List Tween →
    Except String (ℕ × List (ℕ × List (String × JsNum)))
  | currentTweenIndex, cur, rest =>
    let thisPhaseProgress :=
      jsDiv (eased - cur.startProgress) (cur.endProgress - cur.startProgress)
    match rest with
    | next :: rest2 =>
      if jsGtOne thisPhaseProgress then
        stepLoop subjects eased (currentTweenIndex + 1) next rest2
      else
        match stepApply subjects currentTweenIndex thisPhaseProgress with
        | .error e => .error e
        | .ok applied => .ok (currentTweenIndex, applied)
    | [] =>
      match stepApply subjects currentTweenIndex thisPhaseProgress with
      | .error e => .error e
      | .ok applied => .ok (currentTweenIndex, applied)

/-- `step(progress)` (`keyframe_animation.js:196-226`): applies the optional
easing, dereferences `this.subjects[0].tweens` unconditionally (a thrown
TypeError when no subject is bound, or when the index is out of range),
advances past segments whose phase-local progress exceeds 1, and applies the
resolved segment to every subject. Returns the new `this.currentTweenIndex`
and the applied value maps. -/
def step (easing : Option (ℚ → ℚ)) (subjects : List SubjectBinding)
    (currentTweenIndex : ℕ) (progress : ℚ) :
    Except String (ℕ × List (ℕ × List (String × JsNum))) :=
  let eased := match easing with | some f => f progress | none => progress
  match subjects.head? with
  | none => .error "TypeError: this.subjects[0] is undefined"
  | some s0 =>
    match s0.tweens.drop currentTweenIndex with
    | [] => .error "TypeError: curTween is undefined"
    | cur :: rest => stepLoop subjects eased currentTweenIndex cur rest

/-- The `this.repeat` option: `Infinity` or a finite (integer) counter.
`repeat-- ` keeps decrementing a finite counter below zero. -/
inductive RepeatCount where
  | inf
  | fin (n : ℤ)
deriving Repr, DecidableEq

/-- An emitted event. `animEnd` stands for the source's `'end'` event
(`end` is reserved in Lean); `beforebegin`, `play` and `pause` keep their
source names. -/
inductive Evt where
  | beforebegin
  | play
  | pause
  | animEnd
deriving Repr, DecidableEq

/-- The mutable instance state of a `KeyframeAnimation`, plus the
constructor-time configuration. `animations` models the `this.animations`
field read by `removeSubject` (`keyframe_animation.js:295`): the constructor
never assigns it, so it is `none` (JS `undefined`) on every constructed
instance. Subscription to the clock rises and falls exactly with
`isPlaying` (`play` subscribes and sets it, `pause`/`reset` unsubscribe and
clear it), so it is not a separate field. Writes to the subjects' own
attributes (`subject.attr(...)`) are external effects reported in the
step results, not state of the animation. -/
structure AnimState where
  duration : ℚ
  delay : ℕ
  repeatN : RepeatCount
  isTimelineBound : Bool
  easing : Option (ℚ → ℚ)
  keyframes : Keyframes
  keys : List ℚ
  subjects : List SubjectBinding
  animations : Option (List Unit)
  frame : ℚ
  prevFrame : ℚ
  currentDelay : ℕ
  currentTweenIndex : ℕ
  isPlaying : Bool

/-- `play()` (`keyframe_animation.js:115-145`): a no-op while already
playing; otherwise emits `beforebegin` whenever `this.frame === 0`, then
`play`, applies the frame-0 snapshot to the subjects (an external write, not
tracked), marks playing and subscribes to the clock. -/
def play (s : AnimState) : AnimState × List Evt :=
  if s.isPlaying then (s, [])
  else
    ({ s with isPlaying := true },
      (if s.frame = 0 then [Evt.beforebegin] else []) ++ [Evt.play])

/-- `pause()` (`keyframe_animation.js:150-155`): unsubscribes, emits
`pause`, marks not playing. -/
def pause (s : AnimState) : AnimState × List Evt :=
  ({ s with isPlaying := false }, [Evt.pause])

/-- `reset()` (`keyframe_animation.js:231-238`): zeroes the frame counter
and active segment index, marks not playing, unsubscribes. -/
def reset (s : AnimState) : AnimState :=
  { s with frame := 0, isPlaying := false, currentTweenIndex := 0 }

/-- The completion tail of `onStep` (`keyframe_animation.js:179-189`):
clear `prevFrame`, restore the configured delay, `reset()`, then
`if (this.repeat === Infinity || this.repeat-- > 0) this.play(); else
this.emit('end', this)`. A finite `repeat` is decremented on every
completion, even below zero. -/
def onComplete (s : AnimState) : AnimState × List Evt :=
  let s1 := reset { s with prevFrame := 0, currentDelay := s.delay }
  match s1.repeatN with
  | .inf => play s1
  | .fin n =>
    let s2 := { s1 with repeatN := .fin (n - 1) }
    if 0 < n then play s2 else (s2, [Evt.animEnd])

/-- `onStep(_, frameNumber, timelineIsFinished)`
(`keyframe_animation.js:157-194`): while the delay counter is positive,
decrement it and return (`currentDelay > 0 && currentDelay--`); otherwise
default a falsy (`0`) `prevFrame` to the reported frame, advance `frame` by
the frame delta (defaulting to 1) when timeline-bound or by exactly 1
otherwise, step at `frame / duration`, and on completion run
`onComplete`; otherwise remember the reported frame. -/
def onStep (s : AnimState) (frameNumber : ℚ) (timelineIsFinished : Bool) :
    Except String (AnimState × List Evt) :=
  if 0 < s.currentDelay then
    .ok ({ s with currentDelay := s.currentDelay - 1 }, [])
  else
    let prevFrame := if s.prevFrame = 0 then frameNumber else s.prevFrame
    let frame :=
      if s.isTimelineBound then
        s.frame +
          (if frameNumber - prevFrame = 0 then 1 else frameNumber - prevFrame)
      else s.frame + 1
    let s1 := { s with prevFrame := prevFrame, frame := frame }
    match step s1.easing s1.subjects s1.currentTweenIndex (frame / s1.duration) with
    | .error e => .error e
    | .ok r =>
      let s2 := { s1 with currentTweenIndex := r.1 }
      if (s2.isTimelineBound && timelineIsFinished) || frame = s2.duration then
        .ok (onComplete s2)
      else
        .ok ({ s2 with prevFrame := frameNumber }, [])

/-- Delivery of `k` consecutive clock signals (`frameNumber` counting up
from `fn`, `timelineIsFinished` false), observed only while the animation is
subscribed (playing); the emitted events are concatenated in order. -/
def runSignals : ℕ → ℚ → AnimState → Except String (AnimState × List Evt)
  | 0, _, s => .ok (s, [])
  | k + 1, fn, s =>
    if s.isPlaying then
      match onStep s fn false with
      | .error e => .error e
      | .ok r1 =>
        match runSignals k (fn + 1) r1.1 with
        | .error e => .error e
        | .ok r2 => .ok (r2.1, r1.2 ++ r2.2)
    else runSignals k (fn + 1) s

/-- The loop of `removeSubject(subject)` (`keyframe_animation.js:292-299`):
`l` is captured before any `splice`, so the loop keeps running to the
original length; `remaining` is `l - i`, making the bound structural. On a
match the element is spliced out and then `this.animations.length` is read:
`animations` is `undefined` (`none`) on every constructed instance, so a
match throws a TypeError. -/
def removeSubjectGo (animations : Option (List Unit)) (subj : ℕ) :
    ℕ → ℕ → List SubjectBinding → Except String (List SubjectBinding)
  | 0, _, subjects => .ok subjects
  | remaining + 1, i, subjects =>
    match subjects.get? i with
    | none => .error "TypeError: this.subjects[i] is undefined"
    | some b =>
      if b.subject = subj then
        match animations with
        | none => .error "TypeError: this.animations is undefined"
        | some _ => removeSubjectGo animations subj remaining (i + 1) (subjects.eraseIdx i)
      else removeSubjectGo animations subj remaining (i + 1) subjects

/-- `removeSubject(subject)` (`keyframe_animation.js:291-300`). -/
def removeSubject (s : AnimState) (subj : ℕ) : Except String AnimState :=
  match removeSubjectGo s.animations subj s.subjects.length 0 s.subjects with
  | .error e => .error e
  | .ok l => .ok { s with subjects := l }

/-- A freshly constructed animation in the configuration the scenario claims
use: free-running (`isTimelineBound := false` isolates the scenarios from
the external timeline's own finish flag), no easing, one bound subject whose
single segment spans the whole timeline. Mirrors the constructor's initial
playback state (`keyframe_animation.js:53-56`). -/
def mkScenarioState (duration : ℚ) (delay : ℕ) (repeatN : RepeatCount) :
    AnimState :=
  { duration := duration
    delay := delay
    repeatN := repeatN
    isTimelineBound := false
    easing := none
    keyframes := [(duration, [("x", 1)])]
    keys := [duration]
    subjects :=
      [{ subject := 0
         tweens := createTweens duration [(duration, [("x", 1)])] [duration]
           [("x", 0)] }]
    animations := none
    frame := 0
    prevFrame := 0
    currentDelay := delay
    currentTweenIndex := 0
    isPlaying := false }

/-- Observation helper: the events emitted over `k` clock signals (frame
numbers counting up from 1) delivered to a state; `[]` on a thrown error. -/
def signalEvents (k : ℕ) (s : AnimState) : List Evt :=
  match runSignals k 1 s with
  | .error _ => []
  | .ok r => r.2

/-- Observation helper: the frame counter after `k` clock signals (frame
numbers counting up from 1); `0` on a thrown error. -/
def signalFrame (k : ℕ) (s : AnimState) : ℚ :=
  match runSignals k 1 s with
  | .error _ => 0
  | .ok r => r.1.frame

theorem createTweensGo_windows (duration : ℚ) (keyframes : Keyframes) :
    ∀ (keys : List ℚ) (t0 : ℚ) (pv : PropMap),
      windows (createTweensGo duration keyframes keys t0 pv) =
        windowsOf duration keys t0 := by
  intro keys
  induction keys with
  | nil => intro t0 pv; rfl
  | cons key rest ih =>
    intro t0 pv
    by_cases hk : key = 0
    · simp [createTweensGo, windowsOf, hk, ih]
    · have hacc : t0 + (key - t0) = key := by ring
      simp only [createTweensGo, windowsOf, if_neg hk, windows, List.map_cons,
        List.cons.injEq, Prod.mk.injEq, hacc]
      refine ⟨⟨trivial, by ring⟩, ?_⟩
      simpa [windows] using ih key ((getFrame keyframes key).getD [])

theorem createTweensGo_length (duration : ℚ) (keyframes : Keyframes) :
    ∀ (keys : List ℚ) (t0 : ℚ) (pv : PropMap),
      (createTweensGo duration keyframes keys t0 pv).length =
        (keys.filter (fun k => k ≠ 0)).length := by
  intro keys
  induction keys with
  | nil => intro t0 pv; rfl
  | cons key rest ih =>
    intro t0 pv
    by_cases hk : key = 0 <;>
      simp [createTweensGo, hk, ih, List.filter_cons]

theorem windowsOf_filter (d : ℚ) :
    ∀ (keys : List ℚ) (t0 : ℚ),
      windowsOf d keys t0 = windowsOf d (keys.filter (fun k => k ≠ 0)) t0 := by
  intro keys
  induction keys with
  | nil => intro t0; rfl
  | cons k rest ih =>
    intro t0
    by_cases hk : k = 0 <;> simp [windowsOf, List.filter_cons, hk, ih]

theorem windowsOf_facts (d : ℚ) (hd : 0 < d) :
    ∀ (keys : List ℚ) (t0 : ℚ), List.Sorted (· < ·) keys →
      (∀ k ∈ keys, t0 < k) → (∀ k ∈ keys, k ≠ 0) →
      (∀ w ∈ windowsOf d keys t0, w.1 < w.2) ∧
      List.Chain' (fun a b => a.2 = b.1) (windowsOf d keys t0) ∧
      (windowsOf d keys t0).head?.map Prod.fst = keys.head?.map (fun _ => t0 / d) ∧
      (windowsOf d keys t0).getLast?.map Prod.snd = keys.getLast?.map (fun k => k / d) := by
  intro keys
  induction keys with
  | nil => intro t0 _ _ _; simp [windowsOf]
  | cons k rest ih =>
    intro t0 hs hlt hnz
    have hk0 : k ≠ 0 := hnz k (List.mem_cons_self k rest)
    have hcons := List.sorted_cons.mp hs
    have hrest := ih k hcons.2 hcons.1
      (fun j hj => hnz j (List.mem_cons_of_mem _ hj))
    simp only [windowsOf, if_neg hk0]
    refine ⟨?_, ?_, ?_, ?_⟩
    · intro w hw
      rcases List.mem_cons.mp hw with h | h
      · subst h
        exact (div_lt_div_iff_of_pos_right hd).mpr (hlt k (List.mem_cons_self k rest))
      · exact hrest.1 w h
    · rw [List.chain'_cons']
      refine ⟨?_, hrest.2.1⟩
      intro b hb
      have hhead := hrest.2.2.1
      cases hws : (windowsOf d rest k).head? with
      | none => simp [hws] at hb
      | some w =>
        rw [hws] at hb hhead
        cases hrest' : rest.head? with
        | none => rw [hrest'] at hhead; simp at hhead
        | some r =>
          rw [hrest'] at hhead
          simp at hhead hb
          exact (hb ▸ hhead).symm
    · simp
    · cases rest with
      | nil => simp [windowsOf]
      | cons r rest2 =>
        have hr0 : r ≠ 0 := hnz r (List.mem_cons_of_mem _ (List.mem_cons_self r rest2))
        have hform : windowsOf d (r :: rest2) k =
            (k / d, r / d) :: windowsOf d rest2 r := by
          simp only [windowsOf, if_neg hr0]
        rw [hform, List.getLast?_cons_cons, List.getLast?_cons_cons, ← hform]
        exact hrest.2.2.2

/-- C1 (amended): for a positive duration and an ascending sequence of
non-negative resolved keys, `_createTweens` produces exactly one segment per
non-zero key (frame 0 never yields a segment); the windows are
monotonically increasing, contiguous, start at 0 and end at `K/duration`
for the largest non-zero key `K`; they partition `[0, 1]` precisely when
`K` equals the (possibly widened) duration — not in general. -/
theorem createTweens_segments (d : ℚ) (keyframes : Keyframes) (keys : List ℚ)
    (sv : PropMap) (hd : 0 < d) (hs : List.Sorted (· < ·) keys)
    (hnn : ∀ k ∈ keys, 0 ≤ k) :
    (createTweens d keyframes keys sv).length =
      (keys.filter (fun k => k ≠ 0)).length ∧
    (∀ t ∈ createTweens d keyframes keys sv,
      t.startProgress < t.endProgress) ∧
    List.Chain' (fun a b => a.endProgress = b.startProgress)
      (createTweens d keyframes keys sv) ∧
    (createTweens d keyframes keys sv).head?.map Tween.startProgress =
      (keys.filter (fun k => k ≠ 0)).head?.map (fun _ => 0) ∧
    (createTweens d keyframes keys sv).getLast?.map Tween.endProgress =
      (keys.filter (fun k => k ≠ 0)).getLast?.map (fun k => k / d) ∧
    ((keys.filter (fun k => k ≠ 0)).getLast? = some d →
      PartitionsUnitInterval (createTweens d keyframes keys sv)) := by
  have hw : windows (createTweens d keyframes keys sv) =
      windowsOf d (keys.filter (fun k => k ≠ 0)) 0 := by
    rw [createTweens, createTweensGo_windows, windowsOf_filter]
  have hpk_sorted : List.Sorted (· < ·) (keys.filter (fun k => k ≠ 0)) :=
    hs.filter _
  have hpk_mem : ∀ k ∈ keys.filter (fun k => k ≠ 0), 0 < k ∧ k ≠ 0 := by
    intro k hk
    have hmem := List.mem_filter.mp hk
    have hne : k ≠ 0 := by simpa using hmem.2
    exact ⟨lt_of_le_of_ne (hnn k hmem.1) (Ne.symm hne), hne⟩
  have hfacts := windowsOf_facts d hd (keys.filter (fun k => k ≠ 0)) 0
    hpk_sorted (fun k hk => (hpk_mem k hk).1) (fun k hk => (hpk_mem k hk).2)
  rw [← hw] at hfacts
  have hlen := createTweensGo_length d keyframes keys 0 sv
  have hmono : ∀ t ∈ createTweens d keyframes keys sv,
      t.startProgress < t.endProgress := by
    intro t ht
    exact hfacts.1 (t.startProgress, t.endProgress)
      (List.mem_map_of_mem _ ht)
  have hchain : List.Chain' (fun a b => a.endProgress = b.startProgress)
      (createTweens d keyframes keys sv) := by
    have := hfacts.2.1
    rw [windows, List.chain'_map] at this
    exact this
  have hhead : (createTweens d keyframes keys sv).head?.map Tween.startProgress =
      (keys.filter (fun k => k ≠ 0)).head?.map (fun _ => 0) := by
    have := hfacts.2.2.1
    rw [windows, List.head?_map, Option.map_map] at this
    rw [show (0:ℚ)/d = 0 from zero_div d] at this
    exact this
  have hlast : (createTweens d keyframes keys sv).getLast?.map Tween.endProgress =
      (keys.filter (fun k => k ≠ 0)).getLast?.map (fun k => k / d) := by
    have := hfacts.2.2.2
    rw [windows, List.getLast?_map, Option.map_map] at this
    exact this
  refine ⟨hlen, hmono, hchain, hhead, hlast, ?_⟩
  intro hK
  have hne : keys.filter (fun k => k ≠ 0) ≠ [] := by
    intro h
    rw [h] at hK
    simp at hK
  refine ⟨?_, ?_, hchain, hmono⟩
  · rw [hhead]
    cases hpk : (keys.filter (fun k => k ≠ 0)).head? with
    | none => exact absurd (List.head?_eq_none_iff.mp hpk) hne
    | some k => simp
  · rw [hlast, hK]
    simp [div_self hd.ne']

/-- C1 counterexample: constructor input duration 10, keyframes
`{5: {x: 1}}` — one non-zero resolved keyframe, duration stays 10.
`_createTweens` produces the single window `[0, 1/2]`: the windows do not
partition `[0, 1]`. -/
theorem createTweens_not_unit_partition :
    (convertKeysToFrames (fun _ => 0) 10 [(.num 5, [("x", 1)])]).2 = 10 ∧
    (createTweens 10 [(5, [("x", 1)])] [5] [("x", 0)]).length = 1 ∧
    ¬ PartitionsUnitInterval (createTweens 10 [(5, [("x", 1)])] [5] [("x", 0)]) := by
  refine ⟨by decide, by decide, ?_⟩
  intro h
  have hB := h.2.1
  norm_num [createTweens, createTweensGo, PartitionsUnitInterval] at hB

/-- C1 witness: duration 10, keys 0, 5, 10 — two segments, and since the
largest key equals the duration the windows partition `[0, 1]`. -/
theorem createTweens_segments_witness :
    (createTweens 10 [(0, [("x", 0)]), (5, [("x", 1)]), (10, [("x", 2)])]
      [0, 5, 10] [("x", 0)]).length = 2 ∧
    PartitionsUnitInterval
      (createTweens 10 [(0, [("x", 0)]), (5, [("x", 1)]), (10, [("x", 2)])]
        [0, 5, 10] [("x", 0)]) := by
  have h := createTweens_segments 10
    [(0, [("x", 0)]), (5, [("x", 1)]), (10, [("x", 2)])] [0, 5, 10]
    [("x", 0)] (by norm_num) (by decide) (by decide)
  exact ⟨by decide, h.2.2.2.2.2 (by decide)⟩

theorem ite_lt_eq_max (a b : ℚ) : (if a < b then b else a) = max a b := by
  rcases le_or_lt b a with h | h
  · rw [if_neg (not_lt.mpr h), max_eq_left h]
  · rw [if_pos h, max_eq_right (le_of_lt h)]

theorem foldlMax_le_self (l : List ℚ) : ∀ a : ℚ, a ≤ l.foldl max a := by
  induction l with
  | nil => intro a; exact le_refl a
  | cons b rest ih =>
    intro a
    exact le_trans (le_max_left a b) (ih (max a b))

theorem foldlMax_mem_le (l : List ℚ) : ∀ (a f : ℚ), f ∈ l → f ≤ l.foldl max a := by
  induction l with
  | nil => intro a f hf; cases hf
  | cons b rest ih =>
    intro a f hf
    rcases List.mem_cons.mp hf with h | h
    · subst h
      exact le_trans (le_max_right a f) (foldlMax_le_self rest (max a f))
    · exact ih (max a b) f h

theorem foldlMax_attained (l : List ℚ) :
    ∀ a : ℚ, l.foldl max a = a ∨ l.foldl max a ∈ l := by
  induction l with
  | nil => intro a; exact Or.inl rfl
  | cons b rest ih =>
    intro a
    rcases ih (max a b) with h | h
    · rcases max_choice a b with hm | hm
      · rw [List.foldl_cons, h, hm]; exact Or.inl rfl
      · rw [List.foldl_cons, h, hm]
        exact Or.inr (List.mem_cons_self b rest)
    · exact Or.inr (List.mem_cons_of_mem b h)

theorem foldlMax_lt_iff (l : List ℚ) :
    ∀ a d : ℚ, d < l.foldl max a ↔ d < a ∨ ∃ f ∈ l, d < f := by
  induction l with
  | nil => intro a d; simp
  | cons b rest ih =>
    intro a d
    rw [List.foldl_cons, ih (max a b) d]
    constructor
    · rintro (h | ⟨f, hf, hdf⟩)
      · rcases lt_max_iff.mp h with h' | h'
        · exact Or.inl h'
        · exact Or.inr ⟨b, List.mem_cons_self b rest, h'⟩
      · exact Or.inr ⟨f, List.mem_cons_of_mem b hf, hdf⟩
    · rintro (h | ⟨f, hf, hdf⟩)
      · exact Or.inl (lt_max_iff.mpr (Or.inl h))
      · rcases List.mem_cons.mp hf with h' | h'
        · subst h'; exact Or.inl (lt_max_iff.mpr (Or.inr hdf))
        · exact Or.inr ⟨f, h', hdf⟩

theorem convertGo_snd (clock : String → ℚ) (d : ℚ) :
    ∀ (l : List (KeyLabel × PropMap)) (clean : Keyframes) (m : ℚ),
      (convertGo clock d l clean m).2 =
        if d < (l.map (fun kv => resolveKey clock d kv.1)).foldl max m then
          (l.map (fun kv => resolveKey clock d kv.1)).foldl max m
        else d := by
  intro l
  induction l with
  | nil => intro clean m; simp [convertGo]
  | cons kv rest ih =>
    intro clean m
    rw [convertGo, List.map_cons, List.foldl_cons, ← ite_lt_eq_max]
    exact ih _ _

/-- C3: the duration after construction is `max(declared duration, maximum
resolved keyframe frame)` — it is an upper bound of the declared duration
and of every resolved frame, it is attained (equal to one of them), it never
shrinks, and it exceeds the declared duration exactly when some resolved
frame does. -/
theorem convertKeysToFrames_duration (clock : String → ℚ) (d : ℚ)
    (kfs : List (KeyLabel × PropMap)) (hd : 0 ≤ d) :
    d ≤ (convertKeysToFrames clock d kfs).2 ∧
    (∀ f ∈ kfs.map (fun kv => resolveKey clock d kv.1),
      f ≤ (convertKeysToFrames clock d kfs).2) ∧
    ((convertKeysToFrames clock d kfs).2 = d ∨
      (convertKeysToFrames clock d kfs).2 ∈
        kfs.map (fun kv => resolveKey clock d kv.1)) ∧
    (d < (convertKeysToFrames clock d kfs).2 ↔
      ∃ f ∈ kfs.map (fun kv => resolveKey clock d kv.1), d < f) := by
  have hres : (convertKeysToFrames clock d kfs).2 =
      if d < (kfs.map (fun kv => resolveKey clock d kv.1)).foldl max 0 then
        (kfs.map (fun kv => resolveKey clock d kv.1)).foldl max 0
      else d :=
    convertGo_snd clock d kfs [] 0
  rw [hres]
  by_cases hdm : d < (kfs.map (fun kv => resolveKey clock d kv.1)).foldl max 0
  · rw [if_pos hdm]
    refine ⟨le_of_lt hdm, ?_, ?_, ?_⟩
    · intro f hf
      exact foldlMax_mem_le _ 0 f hf
    · rcases foldlMax_attained (kfs.map (fun kv => resolveKey clock d kv.1)) 0
        with h | h
      · rw [h] at hdm
        exact absurd hdm (not_lt.mpr hd)
      · exact Or.inr h
    · constructor
      · intro _
        rcases (foldlMax_lt_iff _ 0 d).mp hdm with h | h
        · exact absurd h (not_lt.mpr hd)
        · exact h
      · intro _; exact hdm
  · rw [if_neg hdm]
    refine ⟨le_refl d, ?_, Or.inl rfl, ?_⟩
    · intro f hf
      exact le_trans (foldlMax_mem_le _ 0 f hf) (not_lt.mp hdm)
    · constructor
      · intro h; exact absurd h (lt_irrefl d)
      · rintro ⟨f, hf, hdf⟩
        exact absurd (lt_of_lt_of_le hdf (foldlMax_mem_le _ 0 f hf)) hdm

/-- C3 witness: declared duration 10 with a keyframe at frame 15 — the
duration widens to 15 (strictly exceeds the declared duration). -/
theorem convertKeysToFrames_duration_witness :
    (convertKeysToFrames (fun _ => 0) 10 [(.num 15, [])]).2 = 15 ∧
    10 < (convertKeysToFrames (fun _ => 0) 10 [(.num 15, [])]).2 := by
  refine ⟨by decide, ?_⟩
  exact (convertKeysToFrames_duration (fun _ => 0) 10 [(.num 15, [])]
    (by norm_num)).2.2.2.mpr ⟨15, by decide, by norm_num⟩

/-- C2: code-bug evidence. Duration 10, sorted keyframes
`{2: {x: 0, y: 1}, 4: {y: 2}, 6: {x: 10, y: 3}}`, subject initial values
`{x: 100}`. Property `x` is missing at frame 4; the nearest backward
defining frame is 2 (value `0`) and the nearest forward one is 6 (value
`10`), so interpolating between them at progress `(4-2)/(6-2) = 1/2` gives
5. The code's `prevFrame && keyframes[prevFrame][p] || initialValues[p]`
treats the backward value `0` as falsy, interpolates from the initial value
`100` instead, and writes 55. -/
theorem fillInProperties_skips_zero_backward_value :
    hasProp [("x", 0), ("y", 1)] "x" = true ∧
    fillInProperties 10 [2, 4, 6]
        [(2, [("x", 0), ("y", 1)]), (4, [("y", 2)]), (6, [("x", 10), ("y", 3)])]
        [("x", 100)] =
      .ok [(2, [("x", 0), ("y", 1)]), (4, [("y", 2), ("x", 55)]),
        (6, [("x", 10), ("y", 3)])] ∧
    interpolate 0 10 ((4 - 2) / (6 - 2)) = 5 ∧
    interpolate 100 10 ((4 - 2) / (6 - 2)) = 55 ∧
    (55 : ℚ) ≠ 5 := by
  have hxy : ("x" : String) ≠ "y" := by decide
  have hyx : ("y" : String) ≠ "x" := by decide
  refine ⟨by decide, ?_, by norm_num [interpolate], by norm_num [interpolate],
    by norm_num⟩
  norm_num [fillInProperties, fillGo, fillFrame, fillProp, gatherProperties,
    getFrameOfLastDefinedProperty, findNextDefined, getFrame, setFrame,
    getProp, setProp, hasProp, interpolate, hxy, hyx]

/-- C4: code-bug evidence. Duration 10, sorted keyframes
`{2: {x: 0, y: 1}, 4: {y: 2}}`, empty subject initial values. Property `x`
is missing at frame 4 and the prior sorted keyframe 2 defines it (value
`0`), so by the claim no error may be raised — but the falsy chain
`prevFrame && keyframes[prevFrame][p] || initialValues[p]` discards the
backward value `0`, finds no initial value, and throws
`No initial value specified for property: x`. -/
theorem fillInProperties_throws_despite_backward_value :
    hasProp [("x", 0), ("y", 1)] "x" = true ∧
    fillInProperties 10 [2, 4] [(2, [("x", 0), ("y", 1)]), (4, [("y", 2)])]
      [] = .error "x" := by
  have hxy : ("x" : String) ≠ "y" := by decide
  have hyx : ("y" : String) ≠ "x" := by decide
  refine ⟨by decide, ?_⟩
  norm_num [fillInProperties, fillGo, fillFrame, fillProp, gatherProperties,
    getFrameOfLastDefinedProperty, findNextDefined, getFrame, setFrame,
    getProp, setProp, hasProp, interpolate, hxy, hyx]

/-- C5 counterexample: a zero-length active segment (window `[0, 0]`, a
further segment following) stepped at progress 0, exactly its
`startProgress`. The phase-local progress is `(0-0)/(0-0)`, JS `NaN`; `NaN
> 1` is false, so the executor neither advances past the segment (the index
stays 0) nor applies a well-defined value — it applies `NaN`. -/
theorem step_zero_length_nan :
    step none
        [{ subject := 0
           tweens := [{ fromValues := [("x", 0)], toValues := [("x", 1)],
                        startProgress := 0, endProgress := 0 },
                      { fromValues := [("x", 1)], toValues := [("x", 2)],
                        startProgress := 0, endProgress := 1 }] }] 0 0 =
      .ok (0, [(0, [("x", JsNum.nan)])]) ∧
    ¬ ∃ q : ℚ, JsNum.nan = JsNum.fin q := by
  constructor
  · norm_num [step, stepLoop, stepApply, tweenAt, jsDiv, jsGtOne, jsInterp,
      getProp]
  · rintro ⟨q, hq⟩
    cases hq

/-- C5 (amended): when the active segment is zero-length and the (uneased)
progress strictly exceeds its `startProgress`, the IEEE division yields
`+Infinity`, which is treated as phase-local progress greater than 1, and
the executor advances past the zero-length segment whenever a further
segment exists; only at progress exactly equal to `startProgress` does the
division yield `NaN` and the applied value become undefined. -/
theorem step_zero_length_advances (subjects : List SubjectBinding)
    (s0 : SubjectBinding) (idx : ℕ) (progress : ℚ) (cur next : Tween)
    (rest : List Tween) (hhead : subjects.head? = some s0)
    (hdrop : s0.tweens.drop idx = cur :: next :: rest)
    (hzero : cur.endProgress = cur.startProgress)
    (hgt : cur.startProgress < progress) :
    step none subjects idx progress = step none subjects (idx + 1) progress := by
  have hdrop1 : s0.tweens.drop (idx + 1) = next :: rest := by
    rw [← List.tail_drop, hdrop, List.tail_cons]
  have hphase : jsDiv (progress - cur.startProgress)
      (cur.endProgress - cur.startProgress) = .posInf := by
    rw [hzero, sub_self, jsDiv, if_pos rfl, if_neg (sub_ne_zero.mpr (ne_of_gt hgt)),
      if_pos (sub_pos.mpr hgt)]
  simp only [step, hhead, hdrop, hdrop1, stepLoop, hphase, jsGtOne, if_pos]

/-- C5 witness: the zero-length segment `[0, 0]` stepped at progress `1/2`
advances to the following segment and applies the finite value `3/2`. -/
theorem step_zero_length_advances_witness :
    step none
        [{ subject := 0
           tweens := [{ fromValues := [("x", 0)], toValues := [("x", 1)],
                        startProgress := 0, endProgress := 0 },
                      { fromValues := [("x", 1)], toValues := [("x", 2)],
                        startProgress := 0, endProgress := 1 }] }] 0 (1/2) =
      step none
        [{ subject := 0
           tweens := [{ fromValues := [("x", 0)], toValues := [("x", 1)],
                        startProgress := 0, endProgress := 0 },
                      { fromValues := [("x", 1)], toValues := [("x", 2)],
                        startProgress := 0, endProgress := 1 }] }] 1 (1/2) :=
  step_zero_length_advances _ _ 0 (1/2) _ _ [] rfl rfl rfl (by norm_num)

/-- C10: `step` dereferences `this.subjects[0].tweens` unconditionally, so
with zero bound subjects every call fails with a TypeError, for every
easing, segment index and progress value; consequently a clock signal
delivered past the delay (`onStep`) also fails. At least one bound subject
is a precondition of stepping. -/
theorem step_requires_a_subject (easing : Option (ℚ → ℚ)) (idx : ℕ)
    (progress : ℚ) (s : AnimState) (fn : ℚ) (tf : Bool)
    (hsub : s.subjects = []) (hdel : s.currentDelay = 0) :
    step easing [] idx progress =
      .error "TypeError: this.subjects[0] is undefined" ∧
    onStep s fn tf = .error "TypeError: this.subjects[0] is undefined" := by
  constructor
  · rfl
  · simp [onStep, hdel, hsub, step]

/-- C10 witness: a concrete constructed state with no bound subjects and no
delay fails on a clock signal. -/
theorem step_requires_a_subject_witness :
    step none [] 0 0 = .error "TypeError: this.subjects[0] is undefined" ∧
    onStep { mkScenarioState 5 0 (.fin 0) with subjects := [] } 1 false =
      .error "TypeError: this.subjects[0] is undefined" :=
  step_requires_a_subject none 0 0
    { mkScenarioState 5 0 (.fin 0) with subjects := [] } 1 false rfl rfl

set_option maxHeartbeats 4000000 in
/-- C6: with repeat=2 (duration 2, one subject), the initial `play()` emits
`play`, each of the first two completions calls `play()` again, and the end
event fires exactly at the third completion (signal 6) — three full
play-throughs, three `play` emissions in total, no `end` earlier; with
repeat=0 the end event fires at the first completion (signal 2). In
general, on completion `play()` is called again exactly when repeat is
unlimited or the finite counter is still positive (which is then
decremented), and the end event is emitted otherwise. -/
theorem onComplete_repeat_behavior :
    (play (mkScenarioState 2 0 (.fin 2))).2 = [Evt.beforebegin, Evt.play] ∧
    signalEvents 6 (play (mkScenarioState 2 0 (.fin 2))).1 =
      [Evt.beforebegin, Evt.play, Evt.beforebegin, Evt.play, Evt.animEnd] ∧
    signalEvents 5 (play (mkScenarioState 2 0 (.fin 2))).1 =
      [Evt.beforebegin, Evt.play, Evt.beforebegin, Evt.play] ∧
    (play (mkScenarioState 2 0 (.fin 0))).2 = [Evt.beforebegin, Evt.play] ∧
    signalEvents 2 (play (mkScenarioState 2 0 (.fin 0))).1 = [Evt.animEnd] ∧
    signalEvents 1 (play (mkScenarioState 2 0 (.fin 0))).1 = [] ∧
    (∀ s : AnimState,
      (Evt.play ∈ (onComplete s).2 ↔
        s.repeatN = .inf ∨ ∃ n : ℤ, s.repeatN = .fin n ∧ 0 < n) ∧
      (Evt.animEnd ∈ (onComplete s).2 ↔
        ¬(s.repeatN = .inf ∨ ∃ n : ℤ, s.repeatN = .fin n ∧ 0 < n)) ∧
      (∀ n : ℤ, s.repeatN = .fin n →
        (onComplete s).1.repeatN = .fin (n - 1))) := by
  refine ⟨rfl, ?_, ?_, rfl, ?_, ?_, ?_⟩
  · norm_num [signalEvents, runSignals, onStep, onComplete, play, pause, reset,
      step, stepLoop, stepApply, tweenAt, jsDiv, jsGtOne, jsInterp,
      mkScenarioState, createTweens, createTweensGo, getFrame, getProp]
  · norm_num [signalEvents, runSignals, onStep, onComplete, play, pause, reset,
      step, stepLoop, stepApply, tweenAt, jsDiv, jsGtOne, jsInterp,
      mkScenarioState, createTweens, createTweensGo, getFrame, getProp]
  · norm_num [signalEvents, runSignals, onStep, onComplete, play, pause, reset,
      step, stepLoop, stepApply, tweenAt, jsDiv, jsGtOne, jsInterp,
      mkScenarioState, createTweens, createTweensGo, getFrame, getProp]
  · norm_num [signalEvents, runSignals, onStep, onComplete, play, pause, reset,
      step, stepLoop, stepApply, tweenAt, jsDiv, jsGtOne, jsInterp,
      mkScenarioState, createTweens, createTweensGo, getFrame, getProp]
  · intro s
    refine ⟨?_, ?_, ?_⟩
    · cases hr : s.repeatN with
      | inf => simp [onComplete, play, reset, hr]
      | fin n =>
        by_cases hn : 0 < n <;>
          simp [onComplete, play, reset, hr, hn]
    · cases hr : s.repeatN with
      | inf => simp [onComplete, play, reset, hr]
      | fin n =>
        by_cases hn : 0 < n <;>
          simp [onComplete, play, reset, hr, hn]
    · intro n hr
      by_cases hn : 0 < n <;>
        simp [onComplete, play, reset, hr, hn]

/-- C6 witness: a state with finite repeat counter 5 calls `play()` again
on completion. -/
theorem onComplete_repeat_behavior_witness :
    Evt.play ∈ (onComplete (mkScenarioState 2 0 (.fin 5))).2 :=
  ((onComplete_repeat_behavior.2.2.2.2.2.2 (mkScenarioState 2 0 (.fin 5))).1).mpr
    (Or.inr ⟨5, rfl, by norm_num⟩)

set_option maxHeartbeats 4000000 in
/-- C7: while the delay counter is positive, each clock signal decrements
it by exactly one and nothing else happens (no frame advance, no stepping,
no events); in the scenario delay=3, duration=5 (repeat 0) the first three
signals leave the frame counter at 0, no event is emitted through signal 7,
and the end event fires exactly on signal 8. -/
theorem delay_consumes_signals :
    (∀ (s : AnimState) (fn : ℚ) (tf : Bool), 0 < s.currentDelay →
      onStep s fn tf = .ok ({ s with currentDelay := s.currentDelay - 1 }, [])) ∧
    signalFrame 3 (play (mkScenarioState 5 3 (.fin 0))).1 = 0 ∧
    signalEvents 7 (play (mkScenarioState 5 3 (.fin 0))).1 = [] ∧
    signalEvents 8 (play (mkScenarioState 5 3 (.fin 0))).1 = [Evt.animEnd] := by
  refine ⟨?_, ?_, ?_, ?_⟩
  · intro s fn tf h
    rw [onStep, if_pos h]
  · norm_num [signalFrame, runSignals, onStep, onComplete, play, pause, reset,
      step, stepLoop, stepApply, tweenAt, jsDiv, jsGtOne, jsInterp,
      mkScenarioState, createTweens, createTweensGo, getFrame, getProp]
  · norm_num [signalEvents, runSignals, onStep, onComplete, play, pause, reset,
      step, stepLoop, stepApply, tweenAt, jsDiv, jsGtOne, jsInterp,
      mkScenarioState, createTweens, createTweensGo, getFrame, getProp]
  · norm_num [signalEvents, runSignals, onStep, onComplete, play, pause, reset,
      step, stepLoop, stepApply, tweenAt, jsDiv, jsGtOne, jsInterp,
      mkScenarioState, createTweens, createTweensGo, getFrame, getProp]

/-- C7 witness: a clock signal to the freshly played delay-3 scenario state
decrements the delay counter to 2 and does nothing else. -/
theorem delay_consumes_signals_witness :
    onStep (play (mkScenarioState 5 3 (.fin 0))).1 1 false =
      .ok ({ (play (mkScenarioState 5 3 (.fin 0))).1 with
        currentDelay := 3 - 1 }, []) :=
  delay_consumes_signals.1 (play (mkScenarioState 5 3 (.fin 0))).1 1 false
    (by norm_num [play, mkScenarioState])

/-- C8 counterexample: the sequence `play(); pause(); play()` — the second
`play()` is again at frame 0, so `beforebegin` is emitted twice, refuting
"only the first time play() is invoked at frame 0"; and a `play()` call
while already playing emits nothing at all (not even `play`), refuting
"the play notification is emitted on every play() call". -/
theorem play_begin_reemitted :
    ((play (mkScenarioState 5 0 (.fin 0))).2 ++
      (pause (play (mkScenarioState 5 0 (.fin 0))).1).2 ++
      (play (pause (play (mkScenarioState 5 0 (.fin 0))).1).1).2).count
        Evt.beforebegin = 2 ∧
    (play (play (mkScenarioState 5 0 (.fin 0))).1).2 = [] := by
  constructor <;> rfl

/-- C8 (amended): `play()` while already playing is a no-op emitting
nothing; otherwise it emits `beforebegin` exactly when the frame counter is
0 — which holds for the first call, for any replay at frame 0 (e.g. after a
pause before any step), and for every repeat restart (`onComplete` with a
pending repeat re-emits it) — followed by `play`. -/
theorem play_emissions (s : AnimState) :
    (s.isPlaying = true → play s = (s, [])) ∧
    (s.isPlaying = false →
      (play s).2 = (if s.frame = 0 then [Evt.beforebegin] else []) ++ [Evt.play] ∧
      (play s).1.isPlaying = true) ∧
    (∀ n : ℤ, s.repeatN = .fin n → 0 < n →
      Evt.beforebegin ∈ (onComplete s).2) ∧
    (s.repeatN = .inf → Evt.beforebegin ∈ (onComplete s).2) := by
  refine ⟨?_, ?_, ?_, ?_⟩
  · intro h; simp [play, h]
  · intro h; simp [play, h]
  · intro n hr hn
    simp [onComplete, play, reset, hr, hn]
  · intro hr
    simp [onComplete, play, reset, hr]

/-- C8 witness: a paused state at frame 0 re-emits `beforebegin` then
`play` on `play()`. -/
theorem play_emissions_witness :
    (play (pause (play (mkScenarioState 5 0 (.fin 0))).1).1).2 =
      (if (pause (play (mkScenarioState 5 0 (.fin 0))).1).1.frame = 0 then
        [Evt.beforebegin] else []) ++ [Evt.play] :=
  ((play_emissions (pause (play (mkScenarioState 5 0 (.fin 0))).1).1).2.1 rfl).1

theorem removeSubjectGo_no_match (animations : Option (List Unit)) (subj : ℕ) :
    ∀ (remaining i : ℕ) (subjects : List SubjectBinding),
      i + remaining = subjects.length →
      (∀ b ∈ subjects, b.subject ≠ subj) →
      removeSubjectGo animations subj remaining i subjects = .ok subjects := by
  intro remaining
  induction remaining with
  | zero => intro i subjects _ _; rfl
  | succ r ih =>
    intro i subjects hlen hnm
    have hi : i < subjects.length := by omega
    cases hb : subjects.get? i with
    | none =>
      exact absurd (List.get?_eq_none.mp hb) (not_le.mpr hi)
    | some b =>
      have hbne : b.subject ≠ subj := hnm b (List.get?_mem hb)
      simp only [removeSubjectGo, hb, if_neg hbne]
      exact ih (i + 1) subjects (by omega) hnm

/-- C9: code-bug evidence plus the no-op half. When no binding matches,
`removeSubject` is a no-op returning the state unchanged; but whenever a
binding does match, the code reads `this.animations.length` — a field no
`KeyframeAnimation` ever defines — and throws a TypeError instead of
removing the binding. -/
theorem removeSubject_throws_on_match (s : AnimState) (subj : ℕ)
    (hnm : ∀ b ∈ s.subjects, b.subject ≠ subj) :
    removeSubject s subj = .ok s ∧
    removeSubject (mkScenarioState 2 0 (.fin 0)) 0 =
      .error "TypeError: this.animations is undefined" := by
  constructor
  · rw [removeSubject,
      removeSubjectGo_no_match s.animations subj s.subjects.length 0
        s.subjects (by omega) hnm]
  · rfl

/-- C9 witness: removing an absent subject from the one-subject scenario
state leaves it unchanged (while removing the present subject throws). -/
theorem removeSubject_throws_on_match_witness :
    removeSubject (mkScenarioState 2 0 (.fin 0)) 99 =
      .ok (mkScenarioState 2 0 (.fin 0)) ∧
    removeSubject (mkScenarioState 2 0 (.fin 0)) 0 =
      .error "TypeError: this.animations is undefined" :=
  removeSubject_throws_on_match (mkScenarioState 2 0 (.fin 0)) 99
    (by intro b hb; rcases List.mem_singleton.mp hb with h; rw [h]; decide)

end KeyframeAnimation
